import Mathlib

/-!
Verification of the Mercury runtime type-information headers and the
mkinit initialization-file generator.

Shallow embedding conventions:
* C `Word` / `Integer` values that are nonnegative in every reachable use
  (arities, packed higher-order encodings, table offsets) are modelled as
  `Nat`; where C signed arithmetic can matter (`get_line`'s
  `limit = line_max - 2`) we use `Int` explicitly.
* memory reads through pointers are modelled as total functions from word
  offsets to words.
-/

namespace Mercury

/-! ### Higher-order type-constructor packing (runtime/mercury_type_info.h) -/

/-- C: `#define TYPELAYOUT_MAX_VARINT 1024`. -/
def TYPELAYOUT_MAX_VARINT : Nat := 1024

/-- C: `#define TYPEINFO_IS_VARIABLE(T) ( (Word) T <= TYPELAYOUT_MAX_VARINT )`. -/
def TYPEINFO_IS_VARIABLE (t : Nat) : Bool := t ≤ TYPELAYOUT_MAX_VARINT

/-- C: `#define MR_TYPECTOR_IS_HIGHER_ORDER(T) ( (Word) T <= TYPELAYOUT_MAX_VARINT )`. -/
def MR_TYPECTOR_IS_HIGHER_ORDER (t : Nat) : Bool := t ≤ TYPELAYOUT_MAX_VARINT

/-- C: `#define MR_TYPECTOR_MAKE_PRED(Arity) ( (Word) ((Integer) (Arity) * 2) )`. -/
def MR_TYPECTOR_MAKE_PRED (arity : Nat) : Nat := arity * 2

/-- C: `#define MR_TYPECTOR_MAKE_FUNC(Arity) ( (Word) ((Integer) (Arity) * 2 + 1) )`. -/
def MR_TYPECTOR_MAKE_FUNC (arity : Nat) : Nat := arity * 2 + 1

/-- C: `#define MR_TYPECTOR_GET_HOT_ARITY(T) ((Integer) (T) / 2 )`. -/
def MR_TYPECTOR_GET_HOT_ARITY (t : Nat) : Nat := t / 2

/-- C: `#define MR_TYPECTOR_GET_HOT_NAME(T)
((ConstString) ( ( ((Integer) (T)) % 2 ) ? "func" : "pred" ))`. -/
def MR_TYPECTOR_GET_HOT_NAME (t : Nat) : String :=
  if t % 2 ≠ 0 then "func" else "pred"

/-! ### Typeclass-info accessors (runtime/mercury_type_info.h) -/

/-- A typeclass_info as the two levels of memory the accessor macros read:
`firstTable i` is word `i` of the table pointed to by word 0 of the
typeclass_info (C: `(*(Word **) tci)[i]`), and `words i` is word `i` of the
typeclass_info itself (C: `((Word *) tci)[i]`). -/
structure TypeclassInfo where
  firstTable : Nat → Nat
  words : Nat → Nat

/-- C: `#define MR_typeclass_info_instance_arity(tci) ((Integer)(*(Word **)(tci))[0])`. -/
def MR_typeclass_info_instance_arity (tci : TypeclassInfo) : Nat :=
  tci.firstTable 0

/-- C: `#define MR_typeclass_info_class_method(tci, n) ((Code *)(*(Word **)tci)[(n)])`. -/
def MR_typeclass_info_class_method (tci : TypeclassInfo) (n : Nat) : Nat :=
  tci.firstTable n

/-- C: `#define MR_typeclass_info_superclass_info(tci, n)
(((Word *)(tci))[MR_typeclass_info_instance_arity(tci) + (n)])`. -/
def MR_typeclass_info_superclass_info (tci : TypeclassInfo) (n : Nat) : Nat :=
  tci.words (MR_typeclass_info_instance_arity tci + n)

/-- C: `#define MR_typeclass_info_type_info(tci, n)
(((Word *)(tci))[MR_typeclass_info_instance_arity(tci) + (n)])`. -/
def MR_typeclass_info_type_info (tci : TypeclassInfo) (n : Nat) : Nat :=
  tci.words (MR_typeclass_info_instance_arity tci + n)

/-! ### Base-descriptor resolution (runtime/mercury_type_info.h) -/

/-- C: `#define MR_TYPEINFO_GET_BASE_TYPEINFO(TypeInfo)
((*TypeInfo) ? ((Word *) *TypeInfo) : TypeInfo)`, with memory modelled as a
function from addresses to words and the type_info as its address `p`. -/
def MR_TYPEINFO_GET_BASE_TYPEINFO (mem : Nat → Nat) (p : Nat) : Nat :=
  if mem p ≠ 0 then mem p else p

/-! ### Tag-scheme type-layout replication (runtime/mercury_type_info.h) -/

/-- One expansion of the make_typelayout macro. For `TAGBITS >= 2` the macro
packs tag and value into one tagged word (`mkword(mktag(Tag), (Value))`); for
fewer tag bits it lays down the two words `(Tag, Value)` separately. -/
inductive TypeLayoutEntry where
  | packed (tag value : Nat)
  | unpacked (tag value : Nat)
deriving DecidableEq

/-- C: the `make_typelayout(Tag, Value)` macro, whose shape is selected by the
preprocessor test `#if TAGBITS >= 2`. -/
def make_typelayout (tagbits tag value : Nat) : TypeLayoutEntry :=
  if 2 ≤ tagbits then TypeLayoutEntry.packed tag value
  else TypeLayoutEntry.unpacked tag value

/-- C: the `#if TAGBITS == 0 / 1 / 2 / 3 ... #error` chain defining
`make_typelayout_for_all_tags(Tag, Value)`; `none` models the hard
compile-time `#error` raised when TAGBITS is outside {0, 1, 2, 3}. -/
def make_typelayout_for_all_tags (tagbits tag value : Nat) :
    Option (List TypeLayoutEntry) :=
  match tagbits with
  | 0 => some [make_typelayout 0 tag value]
  | 1 => some [make_typelayout 1 tag value,
               make_typelayout 1 tag value]
  | 2 => some [make_typelayout 2 tag value,
               make_typelayout 2 tag value,
               make_typelayout 2 tag value,
               make_typelayout 2 tag value]
  | 3 => some [make_typelayout 3 tag value,
               make_typelayout 3 tag value,
               make_typelayout 3 tag value,
               make_typelayout 3 tag value,
               make_typelayout 3 tag value,
               make_typelayout 3 tag value,
               make_typelayout 3 tag value,
               make_typelayout 3 tag value]
  | _ => none

/-! ### Enum vectors (runtime/mercury_type_info.h) -/

/-- One cell of an enum-vector record: either an integer-valued word
(enum_or_comp_const, num_sharers) or a constant functor-name string. -/
inductive EnumCell where
  | word (w : Nat)
  | name (s : String)
deriving DecidableEq

/-- C struct MR_TypeLayout_EnumVector: `enum_or_comp_const`, then
`num_sharers`, then the functor names, num_sharers of them, in declaration
order. -/
structure MR_TypeLayout_EnumVector where
  enum_or_comp_const : Nat
  num_sharers : Nat
  functors : List String

/-- Memory image of an enum vector: cell 0 is enum_or_comp_const, cell 1 is
num_sharers, and the functor names follow from cell 2 onwards. -/
def enumVectorCells (v : MR_TypeLayout_EnumVector) : List EnumCell :=
  EnumCell.word v.enum_or_comp_const :: EnumCell.word v.num_sharers ::
    v.functors.map EnumCell.name

/-- C: `#define TYPELAYOUT_ENUM_FUNCTOR_OFFSET 2`. -/
def TYPELAYOUT_ENUM_FUNCTOR_OFFSET : Nat := 2

/-- C: `#define MR_TYPELAYOUT_ENUM_VECTOR_FUNCTOR_NAME(Vector, N)
( (&((MR_TypeLayout_EnumVector *)(Vector))->functor1) [N] )`: the address of
the functor1 field is cell 2 of the vector, so indexing it by N reads cell
2 + N. -/
def MR_TYPELAYOUT_ENUM_VECTOR_FUNCTOR_NAME (v : MR_TypeLayout_EnumVector)
    (n : Nat) : Option EnumCell :=
  (enumVectorCells v).get? (2 + n)

/-- C: `#define COMPARE_EQUAL 0`. -/
def COMPARE_EQUAL : Nat := 0

/-- C: `#define COMPARE_LESS 1`. -/
def COMPARE_LESS : Nat := 1

/-- C: `#define COMPARE_GREATER 2`. -/
def COMPARE_GREATER : Nat := 2

/-- Modelled from the spec: the builtin enumeration comparison (its
implementation lives outside the headers shown) compares the raw
representation values of the two constants, so declaration order is the
comparison order; only the COMPARE_* result encoding comes from
mercury_type_info.h. -/
def mercury_compare_enum (x y : Nat) : Nat :=
  if x < y then COMPARE_LESS
  else if x = y then COMPARE_EQUAL
  else COMPARE_GREATER

/-! ### Introspection engine (runtime/mercury_trace_util.h)

The header declares only prototypes; every lookup reports failure through a
bool return value or a `bool *succeeded` out-parameter. The behaviour is
modelled from the spec, with out-parameters returned as tuple components. -/

/-- Modelled from the spec: a live-value location (MR_Live_Lval), carrying
whether the indicated register or stack slot can be read from the
machine-state snapshot and the word stored there. The implementation behind
mercury_trace_util.h is not among the shown sources. -/
structure MR_Live_Lval where
  readable : Bool
  value : Nat
deriving DecidableEq

/-- Modelled from the spec: MR_trace_lookup_live_lval returns the looked-up
word together with the `bool *succeeded` out-parameter (second component);
an unreadable location yields succeeded = false, never a fatal error. -/
def MR_trace_lookup_live_lval (locn : MR_Live_Lval) : Nat × Bool :=
  if locn.readable then (locn.value, true) else (0, false)

/-- Modelled from the spec: one live variable of a stack layout
(MR_Stack_Layout_Var with its name): its name, whether its type parameters
can be materialized to a concrete type_info, and the type_info and value
words produced when they can. -/
structure MR_Stack_Layout_Var where
  var_name : String
  typeResolvable : Bool
  typeInfo : Nat
  value : Nat
deriving DecidableEq

/-- Modelled from the spec: MR_trace_get_type_and_value reports success
through its bool return value (first component); when the variable's type
parameters cannot be resolved it returns false with no outputs. -/
def MR_trace_get_type_and_value (var : MR_Stack_Layout_Var) : Bool × Nat × Nat :=
  if var.typeResolvable then (true, var.typeInfo, var.value) else (false, 0, 0)

/-- Modelled from the spec: MR_trace_get_type_and_value_filtered scans the
live-variable list for a name match, returning (found, typeOk, result): a
name absent from the list gives found = false and no value; a present name
whose type parameter cannot be resolved gives found = true, typeOk = false
and no value. -/
def MR_trace_get_type_and_value_filtered (vars : List MR_Stack_Layout_Var)
    (nm : String) : Bool × Bool × Option (Nat × Nat) :=
  match vars.find? (fun v => v.var_name == nm) with
  | none => (false, false, none)
  | some v =>
    let r := MR_trace_get_type_and_value v
    if r.1 then (true, true, some r.2) else (true, false, none)

/-! ### mkinit (util/mkinit.c): init-call batching -/

/-- C: the Purpose enum of mkinit.c. -/
inductive Purpose where
  | PURPOSE_INIT
  | PURPOSE_TYPE_TABLE
  | PURPOSE_DEBUGGER
  | PURPOSE_PROC_STATIC
deriving DecidableEq

/-- C: `#define MAXCALLS 40`, the default for the maxcalls option. -/
def MAXCALLS : Nat := 40

/-- One module entry point as handed to output_init_function: the mangled
function-name stem and the special_module flag (a handwritten module without
a module layout). -/
structure InitEntry where
  func_name : String
  special_module : Bool
deriving DecidableEq

/-- C: output_init_function. State is (num_bunches, num_calls_in_cur_bunch);
the result also carries the emitted calls, each tagged with the number of the
bunch function whose body receives it. A special module is skipped for the
debugger purpose; when the current bunch already holds maxcalls calls the
current bunch function is closed and the call opens bunch num_bunches + 1. -/
def output_init_function (purpose : Purpose) (maxcalls : Nat) (e : InitEntry)
    (num_bunches num_calls_in_cur_bunch : Nat) :
    Nat × Nat × List (Nat × String) :=
  if purpose = Purpose.PURPOSE_DEBUGGER ∧ e.special_module = true then
    (num_bunches, num_calls_in_cur_bunch, [])
  else if maxcalls ≤ num_calls_in_cur_bunch then
    (num_bunches + 1, 1, [(num_bunches + 1, e.func_name)])
  else
    (num_bunches, num_calls_in_cur_bunch + 1, [(num_bunches, e.func_name)])

/-- C: the loop body of output_sub_init_functions: fold output_init_function
over the entry points extracted from the files in command-line order,
accumulating the emitted calls. -/
def output_sub_init_calls (purpose : Purpose) (maxcalls : Nat) :
    List InitEntry → Nat → Nat → Nat × List (Nat × String)
  | [], nb, _ => (nb, [])
  | e :: es, nb, nc =>
    let step := output_init_function purpose maxcalls e nb nc
    let rest := output_sub_init_calls purpose maxcalls es step.1 step.2.1
    (rest.1, step.2.2 ++ rest.2)

/-- C: output_sub_init_functions opens bunch function 0 with counters
num_bunches = 0 and num_calls_in_cur_bunch = 0, processes every file, and
returns num_bunches (paired here with the emitted calls). -/
def output_sub_init_functions (purpose : Purpose) (maxcalls : Nat)
    (entries : List InitEntry) : Nat × List (Nat × String) :=
  output_sub_init_calls purpose maxcalls entries 0 0

/-- C: the loop `for (i = 0; i <= num_bunches; i++)` of
output_main_init_function, as the list of bunch-function numbers the
generated main function calls. -/
def output_main_init_function (num_bunches : Nat) : List Nat :=
  List.range (num_bunches + 1)

/-- C: the condition under which output_init_function emits a call, negated
from its early return (purpose == PURPOSE_DEBUGGER and special_module). -/
def eligible (purpose : Purpose) (e : InitEntry) : Bool :=
  !(decide (purpose = Purpose.PURPOSE_DEBUGGER) && e.special_module)

/-- Number of emitted calls landing in bunch function b. -/
def countB (cs : List (Nat × String)) (b : Nat) : Nat :=
  (cs.filter (fun q => q.1 == b)).length

/-! ### mkinit (util/mkinit.c): error accounting in main -/

/-- C: the suffix test `len >= 2 && strcmp(filename + len - 2, ".c") == 0`
of process_file, on filenames as character lists. -/
def ends_with_c (l : List Char) : Bool :=
  decide (2 ≤ l.length) && (l.drop (l.length - 2) == ['.', 'c'])

/-- C: the suffix test `len >= 5 && strcmp(filename + len - 5, ".init") == 0`
of process_file. -/
def ends_with_init (l : List Char) : Bool :=
  decide (5 ≤ l.length) && (l.drop (l.length - 5) == ['.', 'i', 'n', 'i', 't'])

/-- The environment a mkinit run sees: which files fopen can open for
reading (assumed stable across the four passes), the -x flag
(c_files_contain_extra_inits), and the -o output file name if one was
given (other than "-"). -/
structure MkinitEnv where
  can_open : List Char → Bool
  c_files_contain_extra_inits : Bool
  output_file_name : Option (List Char)

/-- C: process_init_file increments num_errors exactly when fopen fails;
nothing else in it touches num_errors. -/
def process_init_file_errors (env : MkinitEnv) (name : List Char) : Nat :=
  if env.can_open name then 0 else 1

/-- C: process_file dispatches on the suffix: a .c file goes to
process_c_file (no num_errors contribution) unless c_files_contain_extra_inits
routes it to process_init_file; a .init file goes to process_init_file; any
other name prints a message and increments num_errors. -/
def process_file_errors (env : MkinitEnv) (name : List Char) : Nat :=
  if ends_with_c name then
    if env.c_files_contain_extra_inits then process_init_file_errors env name
    else 0
  else if ends_with_init name then process_init_file_errors env name
  else 1

/-- C: main runs output_sub_init_functions over the whole file list once per
purpose (four times), so each file's error contribution is counted four
times in num_errors. -/
def mkinit_num_errors (env : MkinitEnv) (files : List (List Char)) : Nat :=
  4 * (files.map (process_file_errors env)).sum

/-- Observable outcome of mkinit's main: its exit status, whether the
`#error` directive was appended to the generated output, and whether a named
output file was removed. -/
structure MainOutcome where
  exit_ok : Bool
  error_directive_emitted : Bool
  output_file_removed : Bool
deriving DecidableEq

/-- C: the tail of main: when num_errors > 0 it appends the #error directive
to the generated output, removes the output file when -o named one, and
returns EXIT_FAILURE; otherwise it returns EXIT_SUCCESS. -/
def mkinit_main (env : MkinitEnv) (files : List (List Char)) : MainOutcome :=
  if 0 < mkinit_num_errors env files then
    ⟨false, true, env.output_file_name.isSome⟩
  else ⟨true, false, false⟩

/-! ### mkinit (util/mkinit.c): get_line -/

/-- The NUL character stored by `line[num_chars] = 0`. -/
def NUL : Char := Char.ofNat 0

/-- C: the read loop of get_line, `while ((c = getc(file)) != EOF && c !=
'\n') { if (num_chars < limit) line[num_chars++] = c; }`, over the remaining
input stream. Result: final num_chars, the (index, char) buffer stores in
order, whether the loop stopped on a newline, and the unread input. The
limit is an Int because C computes it as the signed `line_max - 2`. -/
def get_line_scan (limit : Int) : Nat → List Char → Nat × List (Nat × Char) × Bool × List Char
  | nc, [] => (nc, [], false, [])
  | nc, c :: cs =>
    if c = '\n' then (nc, [], true, cs)
    else if (nc : Int) < limit then
      let r := get_line_scan limit (nc + 1) cs
      (r.1, (nc, c) :: r.2.1, r.2.2.1, r.2.2.2)
    else
      get_line_scan limit nc cs

/-- Observable behaviour of one get_line call: the buffer stores (index,
char) in order with the terminating NUL included, the return value, and the
unread input. -/
structure GetLineResult where
  writes : List (Nat × Char)
  ret : Nat
  rest : List Char
deriving DecidableEq

/-- C: get_line(file, line, line_max): limit = line_max - 2; run the read
loop; then `if (c == '\n' || num_chars > 0) line[num_chars++] = '\n';` and
finally `line[num_chars] = '\0'; return num_chars;`. -/
def get_line (line_max : Int) (input : List Char) : GetLineResult :=
  let r := get_line_scan (line_max - 2) 0 input
  if r.2.2.1 = true ∨ 0 < r.1 then
    { writes := r.2.1 ++ [(r.1, '\n'), (r.1 + 1, NUL)],
      ret := r.1 + 1, rest := r.2.2.2 }
  else
    { writes := r.2.1 ++ [(r.1, NUL)], ret := r.1, rest := r.2.2.2 }

end Mercury

namespace Mercury

/-- C1: encoding a predicate of arity N packs to 2N and a function to 2N+1;
MR_TYPECTOR_GET_HOT_ARITY recovers N from either by integer division by two,
and MR_TYPECTOR_GET_HOT_NAME yields "pred" for the even encoding and "func"
for the odd one; the final conjunct checks the boundary arities
0, 1, 8 and 1024 concretely. -/
theorem typector_packed_arity_roundtrip (N : Nat) :
    MR_TYPECTOR_MAKE_PRED N = 2 * N ∧
    MR_TYPECTOR_MAKE_FUNC N = 2 * N + 1 ∧
    MR_TYPECTOR_GET_HOT_ARITY (MR_TYPECTOR_MAKE_PRED N) = N ∧
    MR_TYPECTOR_GET_HOT_ARITY (MR_TYPECTOR_MAKE_FUNC N) = N ∧
    MR_TYPECTOR_GET_HOT_NAME (MR_TYPECTOR_MAKE_PRED N) = "pred" ∧
    MR_TYPECTOR_GET_HOT_NAME (MR_TYPECTOR_MAKE_FUNC N) = "func" ∧
    (([0, 1, 8, 1024] : List Nat).all fun b =>
      MR_TYPECTOR_GET_HOT_ARITY (MR_TYPECTOR_MAKE_PRED b) == b &&
      MR_TYPECTOR_GET_HOT_ARITY (MR_TYPECTOR_MAKE_FUNC b) == b &&
      MR_TYPECTOR_GET_HOT_NAME (MR_TYPECTOR_MAKE_PRED b) == "pred" &&
      MR_TYPECTOR_GET_HOT_NAME (MR_TYPECTOR_MAKE_FUNC b) == "func") = true := by
  have hpredeven : MR_TYPECTOR_MAKE_PRED N % 2 = 0 := by
    simp [MR_TYPECTOR_MAKE_PRED, Nat.mul_mod_left]
  have hfuncodd : MR_TYPECTOR_MAKE_FUNC N % 2 = 1 := by
    simp [MR_TYPECTOR_MAKE_FUNC, Nat.add_mul_mod_self_right]
    omega
  refine ⟨by simp only [MR_TYPECTOR_MAKE_PRED]; ring,
    by simp only [MR_TYPECTOR_MAKE_FUNC]; ring, ?_, ?_, ?_, ?_, by decide⟩
  · simp only [MR_TYPECTOR_GET_HOT_ARITY, MR_TYPECTOR_MAKE_PRED]
    omega
  · simp only [MR_TYPECTOR_GET_HOT_ARITY, MR_TYPECTOR_MAKE_FUNC]
    omega
  · simp [MR_TYPECTOR_GET_HOT_NAME, hpredeven]
  · simp [MR_TYPECTOR_GET_HOT_NAME, hfuncodd]

/-- C8: the higher-order test and the type-variable test are the identical
predicate, holding exactly when the word is at most TYPELAYOUT_MAX_VARINT =
1024; consequently every packed predicate encoding of arity at least 513 and
every packed function encoding of arity at least 512 escapes
MR_TYPECTOR_IS_HIGHER_ORDER even though MR_TYPECTOR_GET_HOT_ARITY still
recovers the arity from it. -/
theorem typector_higher_order_test_escape :
    (∀ t, MR_TYPECTOR_IS_HIGHER_ORDER t = TYPEINFO_IS_VARIABLE t) ∧
    (∀ t, MR_TYPECTOR_IS_HIGHER_ORDER t = true ↔ t ≤ TYPELAYOUT_MAX_VARINT) ∧
    (∀ N, 513 ≤ N →
      MR_TYPECTOR_IS_HIGHER_ORDER (MR_TYPECTOR_MAKE_PRED N) = false ∧
      MR_TYPECTOR_GET_HOT_ARITY (MR_TYPECTOR_MAKE_PRED N) = N) ∧
    (∀ N, 512 ≤ N →
      MR_TYPECTOR_IS_HIGHER_ORDER (MR_TYPECTOR_MAKE_FUNC N) = false ∧
      MR_TYPECTOR_GET_HOT_ARITY (MR_TYPECTOR_MAKE_FUNC N) = N) := by
  refine ⟨fun t => rfl, fun t => by simp [MR_TYPECTOR_IS_HIGHER_ORDER], ?_, ?_⟩
  · intro N hN
    constructor
    · simp only [MR_TYPECTOR_IS_HIGHER_ORDER, MR_TYPECTOR_MAKE_PRED,
        TYPELAYOUT_MAX_VARINT, decide_eq_false_iff_not]
      omega
    · simp only [MR_TYPECTOR_GET_HOT_ARITY, MR_TYPECTOR_MAKE_PRED]
      omega
  · intro N hN
    constructor
    · simp only [MR_TYPECTOR_IS_HIGHER_ORDER, MR_TYPECTOR_MAKE_FUNC,
        TYPELAYOUT_MAX_VARINT, decide_eq_false_iff_not]
      omega
    · simp only [MR_TYPECTOR_GET_HOT_ARITY, MR_TYPECTOR_MAKE_FUNC]
      omega

/-- Closed witness for typector_higher_order_test_escape at concrete arities
513 (predicate) and 512 (function). -/
theorem typector_higher_order_test_escape_witness :
    MR_TYPECTOR_IS_HIGHER_ORDER (MR_TYPECTOR_MAKE_PRED 513) = false ∧
    MR_TYPECTOR_GET_HOT_ARITY (MR_TYPECTOR_MAKE_PRED 513) = 513 ∧
    MR_TYPECTOR_IS_HIGHER_ORDER (MR_TYPECTOR_MAKE_FUNC 512) = false ∧
    MR_TYPECTOR_GET_HOT_ARITY (MR_TYPECTOR_MAKE_FUNC 512) = 512 := by
  obtain ⟨-, -, hp, hf⟩ := typector_higher_order_test_escape
  obtain ⟨hp1, hp2⟩ := hp 513 (by decide)
  obtain ⟨hf1, hf2⟩ := hf 512 (by decide)
  exact ⟨hp1, hp2, hf1, hf2⟩

/-- C2: for every typeclass_info with captured instance arity A (word 0 of the
first-level table) and every index K, superclass-info lookup and type-info
lookup compute the identical word, namely word A + K of the typeclass_info,
while class-method lookup reads word N of the first-level table and depends
on nothing else (in particular not on A). -/
theorem typeclass_info_offset_law :
    (∀ tci k, MR_typeclass_info_superclass_info tci k =
      MR_typeclass_info_type_info tci k) ∧
    (∀ tci k, MR_typeclass_info_superclass_info tci k =
      tci.words (MR_typeclass_info_instance_arity tci + k)) ∧
    (∀ tci n, MR_typeclass_info_class_method tci n = tci.firstTable n) ∧
    (∀ t1 t2 n, t1.firstTable n = t2.firstTable n →
      MR_typeclass_info_class_method t1 n = MR_typeclass_info_class_method t2 n) := by
  refine ⟨fun tci k => rfl, fun tci k => rfl, fun tci n => rfl, ?_⟩
  intro t1 t2 n h
  simpa [MR_typeclass_info_class_method] using h

/-- Closed witness for typeclass_info_offset_law: two concrete typeclass_infos
that agree on first-level word 1 but have different captured arities (words 0)
yield the same method lookup at index 1, and the offset-sharing equalities hold
at a concrete index. -/
theorem typeclass_info_offset_law_witness :
    MR_typeclass_info_superclass_info ⟨fun i => i + 3, fun i => i * 10⟩ 2 =
      MR_typeclass_info_type_info ⟨fun i => i + 3, fun i => i * 10⟩ 2 ∧
    MR_typeclass_info_class_method ⟨fun i => i + 3, fun i => i * 10⟩ 1 =
      MR_typeclass_info_class_method ⟨fun i => 4 * i, fun i => i + 7⟩ 1 := by
  refine ⟨typeclass_info_offset_law.1 ⟨fun i => i + 3, fun i => i * 10⟩ 2, ?_⟩
  exact typeclass_info_offset_law.2.2.2
    ⟨fun i => i + 3, fun i => i * 10⟩ ⟨fun i => 4 * i, fun i => i + 7⟩ 1 rfl

/-- C4: MR_TYPEINFO_GET_BASE_TYPEINFO returns the type_info pointer itself when
its first word is zero (the base/self sentinel), and otherwise returns that
first word: a descriptor with arguments resolves to the base descriptor it
stores at element zero. -/
theorem typeinfo_get_base_typeinfo_resolution (mem : Nat → Nat) (p : Nat) :
    (mem p = 0 → MR_TYPEINFO_GET_BASE_TYPEINFO mem p = p) ∧
    (mem p ≠ 0 → MR_TYPEINFO_GET_BASE_TYPEINFO mem p = mem p) := by
  constructor
  · intro h
    simp [MR_TYPEINFO_GET_BASE_TYPEINFO, h]
  · intro h
    simp [MR_TYPEINFO_GET_BASE_TYPEINFO, h]

/-- Closed witness for typeinfo_get_base_typeinfo_resolution: memory whose
first word at address 5 is zero resolves to 5 itself; memory whose first word
at address 5 is 42 resolves to 42. -/
theorem typeinfo_get_base_typeinfo_resolution_witness :
    MR_TYPEINFO_GET_BASE_TYPEINFO (fun _ => 0) 5 = 5 ∧
    MR_TYPEINFO_GET_BASE_TYPEINFO (fun _ => 42) 5 = 42 := by
  constructor
  · exact (typeinfo_get_base_typeinfo_resolution (fun _ => 0) 5).1 rfl
  · exact (typeinfo_get_base_typeinfo_resolution (fun _ => 42) 5).2 (by decide)

/-- C3: for every TAGBITS in {0, 1, 2, 3} the make_typelayout_for_all_tags
expansion is exactly 2 ^ TAGBITS identical make_typelayout(Tag, Value)
entries, and for every TAGBITS outside that set the expansion is the hard
compile-time failure (modelled as none), never a runtime fallback. -/
theorem make_typelayout_for_all_tags_replication :
    (∀ tagbits tag value, tagbits ≤ 3 →
      make_typelayout_for_all_tags tagbits tag value =
        some (List.replicate (2 ^ tagbits) (make_typelayout tagbits tag value))) ∧
    (∀ tagbits tag value, 4 ≤ tagbits →
      make_typelayout_for_all_tags tagbits tag value = none) := by
  constructor
  · intro tagbits tag value h
    interval_cases tagbits <;> rfl
  · intro tagbits tag value h
    obtain ⟨m, rfl⟩ : ∃ m, tagbits = m + 4 := ⟨tagbits - 4, by omega⟩
    rfl

/-- Closed witness for make_typelayout_for_all_tags_replication: at TAGBITS = 2
the expansion is four identical entries, and at TAGBITS = 4 it is the
compile-time failure. -/
theorem make_typelayout_for_all_tags_replication_witness :
    make_typelayout_for_all_tags 2 1 9 =
      some (List.replicate (2 ^ 2) (make_typelayout 2 1 9)) ∧
    make_typelayout_for_all_tags 4 1 9 = none := by
  constructor
  · exact make_typelayout_for_all_tags_replication.1 2 1 9 (by decide)
  · exact make_typelayout_for_all_tags_replication.2 4 1 9 (by decide)

/-- C6: the functor name decoded for a constant/enumeration value n is the
cell at offset TYPELAYOUT_ENUM_FUNCTOR_OFFSET + n = 2 + n of the enum vector
(the field right after enum_or_comp_const and num_sharers), which is exactly
the nth functor of the declaration-order functor list; and the (modelled)
enumeration comparison orders values exactly by that same index, so decode
order equals declaration order equals comparison order. -/
theorem enum_vector_decode_order :
    (∀ v n, MR_TYPELAYOUT_ENUM_VECTOR_FUNCTOR_NAME v n =
      (enumVectorCells v).get? (TYPELAYOUT_ENUM_FUNCTOR_OFFSET + n)) ∧
    (∀ v n, MR_TYPELAYOUT_ENUM_VECTOR_FUNCTOR_NAME v n =
      Option.map EnumCell.name (v.functors.get? n)) ∧
    (∀ x y, (mercury_compare_enum x y = COMPARE_LESS ↔ x < y) ∧
            (mercury_compare_enum x y = COMPARE_EQUAL ↔ x = y) ∧
            (mercury_compare_enum x y = COMPARE_GREATER ↔ y < x)) := by
  refine ⟨fun v n => rfl, ?_, ?_⟩
  · intro v n
    show (enumVectorCells v).get? (2 + n) = _
    rw [Nat.add_comm 2 n]
    simp [enumVectorCells, List.getElem?_map]
  · intro x y
    simp only [mercury_compare_enum, COMPARE_LESS, COMPARE_EQUAL, COMPARE_GREATER]
    split_ifs with h1 h2 <;> refine ⟨?_, ?_, ?_⟩ <;> constructor <;> intro h <;>
      first
      | omega
      | exact h.elim

/-- C5: every modelled introspection lookup reports failure through a boolean
success flag rather than a fatal error: the live-lvalue lookup's succeeded
flag and the type-and-value retrieval's bool result directly reflect
readability/resolvability, requesting a name absent from the live-variable
list returns found = false with no value, and requesting a present name
whose type parameter cannot be resolved returns found = true,
type-ok = false. -/
theorem trace_introspection_failure_contract :
    (∀ (vars : List MR_Stack_Layout_Var) (nm : String),
      (∀ v ∈ vars, v.var_name ≠ nm) →
      MR_trace_get_type_and_value_filtered vars nm = (false, false, none)) ∧
    (∀ vars nm v, vars.find? (fun v => v.var_name == nm) = some v →
      v.typeResolvable = false →
      MR_trace_get_type_and_value_filtered vars nm = (true, false, none)) ∧
    (∀ locn, (MR_trace_lookup_live_lval locn).2 = locn.readable) ∧
    (∀ var, (MR_trace_get_type_and_value var).1 = var.typeResolvable) := by
  refine ⟨?_, ?_, ?_, ?_⟩
  · intro vars nm h
    have hnone : vars.find? (fun v => v.var_name == nm) = none := by
      rw [List.find?_eq_none]
      intro v hv
      simpa using h v hv
    simp [MR_trace_get_type_and_value_filtered, hnone]
  · intro vars nm v hfind hres
    simp [MR_trace_get_type_and_value_filtered, hfind,
      MR_trace_get_type_and_value, hres]
  · intro locn
    cases h : locn.readable <;> simp [MR_trace_lookup_live_lval, h]
  · intro var
    cases h : var.typeResolvable <;> simp [MR_trace_get_type_and_value, h]

/-- Closed witness for trace_introspection_failure_contract: in a one-variable
live list holding "x" with an unresolvable type, looking up the absent name
"y" reports found = false with no value and looking up "x" reports
found = true with type-ok = false. -/
theorem trace_introspection_failure_contract_witness :
    MR_trace_get_type_and_value_filtered [⟨"x", false, 0, 0⟩] "y" =
      (false, false, none) ∧
    MR_trace_get_type_and_value_filtered [⟨"x", false, 0, 0⟩] "x" =
      (true, false, none) := by
  constructor
  · exact trace_introspection_failure_contract.1 [⟨"x", false, 0, 0⟩] "y"
      (by decide)
  · exact trace_introspection_failure_contract.2.1 [⟨"x", false, 0, 0⟩] "x"
      ⟨"x", false, 0, 0⟩ (by decide) rfl

/-- C9: mkinit's main returns EXIT_SUCCESS exactly when num_errors is zero,
which holds exactly when every input file contributed no error (openable
when routed to process_init_file, and ending in .c or .init); when any error
occurred, main appends the #error directive to the generated output and,
when -o named an output file, removes it, so a failed run never leaves a
silently compilable initialization file behind. -/
theorem mkinit_error_atomicity (env : MkinitEnv) (files : List (List Char)) :
    ((mkinit_main env files).exit_ok = true ↔ mkinit_num_errors env files = 0) ∧
    (mkinit_num_errors env files = 0 ↔
      ∀ f ∈ files, process_file_errors env f = 0) ∧
    (0 < mkinit_num_errors env files →
      (mkinit_main env files).error_directive_emitted = true ∧
      (mkinit_main env files).output_file_removed =
        env.output_file_name.isSome) ∧
    ((mkinit_main env files).exit_ok = false →
      (mkinit_main env files).error_directive_emitted = true) := by
  have hsum : mkinit_num_errors env files = 0 ↔
      ∀ f ∈ files, process_file_errors env f = 0 := by
    unfold mkinit_num_errors
    rw [Nat.mul_eq_zero]
    simp [List.sum_eq_zero_iff]
  by_cases h : 0 < mkinit_num_errors env files
  · refine ⟨?_, hsum, fun _ => ?_, fun _ => ?_⟩ <;>
      (simp [mkinit_main, h]; try omega)
  · refine ⟨?_, hsum, fun hc => absurd hc h, ?_⟩ <;>
      (simp [mkinit_main, h]; try omega)

/-- Closed witness for mkinit_error_atomicity: with no file openable and the
single input file "a.init", num_errors is positive, the #error directive is
emitted and the -o named output file is removed; with the well-formed run on
the same file openable, main exits successfully. -/
theorem mkinit_error_atomicity_witness :
    (mkinit_main
        ⟨fun _ => false, false, some ['o']⟩
        [['a', '.', 'i', 'n', 'i', 't']]).error_directive_emitted = true ∧
    (mkinit_main
        ⟨fun _ => false, false, some ['o']⟩
        [['a', '.', 'i', 'n', 'i', 't']]).output_file_removed = true ∧
    (mkinit_main
        ⟨fun _ => true, false, some ['o']⟩
        [['a', '.', 'i', 'n', 'i', 't']]).exit_ok = true := by
  have h1 := (mkinit_error_atomicity
    ⟨fun _ => false, false, some ['o']⟩ [['a', '.', 'i', 'n', 'i', 't']]).2.2.1
    (by decide)
  have h2 := (mkinit_error_atomicity
    ⟨fun _ => true, false, some ['o']⟩ [['a', '.', 'i', 'n', 'i', 't']]).1
  exact ⟨h1.1, by rw [h1.2]; rfl, h2.mpr (by decide)⟩

/-- The read loop never decreases num_chars. -/
lemma get_line_scan_mono (limit : Int) (input : List Char) :
    ∀ nc : Nat, nc ≤ (get_line_scan limit nc input).1 := by
  induction input with
  | nil => intro nc; simp [get_line_scan]
  | cons c cs ih =>
    intro nc
    by_cases hc : c = '\n'
    · simp [get_line_scan, hc]
    · by_cases hlt : (nc : Int) < limit
      · have := ih (nc + 1)
        simp only [get_line_scan, if_neg hc, if_pos hlt]
        omega
      · have := ih nc
        simp only [get_line_scan, if_neg hc, if_neg hlt]
        omega

/-- The read loop performs exactly final-num_chars minus initial-num_chars
buffer stores. -/
lemma get_line_scan_store_count (limit : Int) (input : List Char) :
    ∀ nc : Nat, (get_line_scan limit nc input).2.1.length =
      (get_line_scan limit nc input).1 - nc := by
  induction input with
  | nil => intro nc; simp [get_line_scan]
  | cons c cs ih =>
    intro nc
    by_cases hc : c = '\n'
    · simp [get_line_scan, hc]
    · by_cases hlt : (nc : Int) < limit
      · have hm := get_line_scan_mono limit cs (nc + 1)
        have := ih (nc + 1)
        simp only [get_line_scan, if_neg hc, if_pos hlt, List.length_cons]
        omega
      · have := ih nc
        simp only [get_line_scan, if_neg hc, if_neg hlt]
        omega

/-- Every buffer store of the read loop lands at an index at least the
initial num_chars and strictly below the final num_chars. -/
lemma get_line_scan_store_range (limit : Int) (input : List Char) :
    ∀ nc : Nat, ∀ w ∈ (get_line_scan limit nc input).2.1,
      nc ≤ w.1 ∧ w.1 < (get_line_scan limit nc input).1 := by
  induction input with
  | nil => intro nc; simp [get_line_scan]
  | cons c cs ih =>
    intro nc
    by_cases hc : c = '\n'
    · simp [get_line_scan, hc]
    · by_cases hlt : (nc : Int) < limit
      · have hm := get_line_scan_mono limit cs (nc + 1)
        simp only [get_line_scan, if_neg hc, if_pos hlt, List.mem_cons]
        rintro w (rfl | hw)
        · constructor
          · exact le_refl nc
          · omega
        · have := ih (nc + 1) w hw
          omega
      · simp only [get_line_scan, if_neg hc, if_neg hlt]
        intro w hw
        exact ih nc w hw

/-- The read loop never pushes num_chars beyond the limit. -/
lemma get_line_scan_le_limit (limit : Int) (input : List Char) :
    ∀ nc : Nat, (nc : Int) ≤ limit →
      ((get_line_scan limit nc input).1 : Int) ≤ limit := by
  induction input with
  | nil => intro nc h; simpa [get_line_scan] using h
  | cons c cs ih =>
    intro nc h
    by_cases hc : c = '\n'
    · simpa [get_line_scan, hc] using h
    · by_cases hlt : (nc : Int) < limit
      · have := ih (nc + 1) (by push_cast; omega)
        simp only [get_line_scan, if_neg hc, if_pos hlt]
        exact_mod_cast this
      · have := ih nc h
        simp only [get_line_scan, if_neg hc, if_neg hlt]
        exact this

/-- On a nonempty stream with room left in the buffer, the read loop either
sees a newline or stores at least one character. -/
lemma get_line_scan_progress (limit : Int) (c : Char) (cs : List Char)
    (nc : Nat) (hlt : (nc : Int) < limit) :
    (get_line_scan limit nc (c :: cs)).2.2.1 = true ∨
      nc < (get_line_scan limit nc (c :: cs)).1 := by
  by_cases hc : c = '\n'
  · left
    simp [get_line_scan, hc]
  · right
    have := get_line_scan_mono limit cs (nc + 1)
    simp only [get_line_scan, if_neg hc, if_pos hlt]
    omega

/-- C10 (amended): for every input stream and buffer size line_max at least
2, get_line writes only at indices 0 through line_max - 1 (at most line_max
bytes), the read loop stores at most line_max - 2 characters of the input
line (silently discarding the rest of an over-long line), the final write is
the NUL terminator at index ret, the return value counts exactly the stored
characters (the NUL excluded), and every nonempty returned line ends with a
newline even when the input's final line lacks one; the return value is 0
only at end of file with nothing stored, which for line_max at least 3
coincides with nothing read. -/
theorem get_line_bounded_write (line_max : Int) (input : List Char)
    (h2 : 2 ≤ line_max) :
    (∀ w ∈ (get_line line_max input).writes, (w.1 : Int) < line_max) ∧
    (((get_line line_max input).writes.length : Int) ≤ line_max) ∧
    (((get_line_scan (line_max - 2) 0 input).2.1.length : Int) ≤ line_max - 2) ∧
    ((get_line line_max input).writes.getLast? =
      some ((get_line line_max input).ret, NUL)) ∧
    ((get_line line_max input).writes.length = (get_line line_max input).ret + 1) ∧
    (0 < (get_line line_max input).ret →
      (get_line line_max input).writes.dropLast.getLast? =
        some ((get_line line_max input).ret - 1, '\n')) ∧
    (3 ≤ line_max → ((get_line line_max input).ret = 0 ↔ input = [])) := by
  have hmono := get_line_scan_mono (line_max - 2) input 0
  have hcount := get_line_scan_store_count (line_max - 2) input 0
  have hrange := get_line_scan_store_range (line_max - 2) input 0
  have hlim := get_line_scan_le_limit (line_max - 2) input 0 (by omega)
  by_cases hfull : (get_line_scan (line_max - 2) 0 input).2.2.1 = true ∨
      0 < (get_line_scan (line_max - 2) 0 input).1
  · have hget : get_line line_max input =
        { writes := (get_line_scan (line_max - 2) 0 input).2.1 ++
            [((get_line_scan (line_max - 2) 0 input).1, '\n'),
             ((get_line_scan (line_max - 2) 0 input).1 + 1, NUL)],
          ret := (get_line_scan (line_max - 2) 0 input).1 + 1,
          rest := (get_line_scan (line_max - 2) 0 input).2.2.2 } := by
      simp only [get_line, if_pos hfull]
    rw [hget]
    refine ⟨?_, ?_, ?_, ?_, ?_, ?_, ?_⟩
    · intro w hw
      simp only [List.mem_append, List.mem_cons, List.mem_singleton] at hw
      rcases hw with hw | rfl | rfl | h
      · have := hrange w hw
        omega
      · simp
        omega
      · simp
        omega
      · exact absurd h (by simp)
    · simp only [List.length_append, List.length_cons, List.length_nil]
      push_cast
      omega
    · omega
    · rw [show (get_line_scan (line_max - 2) 0 input).2.1 ++
          [((get_line_scan (line_max - 2) 0 input).1, '\n'),
           ((get_line_scan (line_max - 2) 0 input).1 + 1, NUL)] =
          ((get_line_scan (line_max - 2) 0 input).2.1 ++
            [((get_line_scan (line_max - 2) 0 input).1, '\n')]) ++
          [((get_line_scan (line_max - 2) 0 input).1 + 1, NUL)] by
        simp]
      simp [List.getLast?_concat]
    · simp only [List.length_append, List.length_cons, List.length_nil]
      omega
    · intro hpos
      rw [show (get_line_scan (line_max - 2) 0 input).2.1 ++
          [((get_line_scan (line_max - 2) 0 input).1, '\n'),
           ((get_line_scan (line_max - 2) 0 input).1 + 1, NUL)] =
          ((get_line_scan (line_max - 2) 0 input).2.1 ++
            [((get_line_scan (line_max - 2) 0 input).1, '\n')]) ++
          [((get_line_scan (line_max - 2) 0 input).1 + 1, NUL)] by
        simp]
      rw [List.dropLast_concat]
      simp [List.getLast?_concat]
    · intro h3
      constructor
      · intro h
        exact absurd h (by simp)
      · intro h
        subst h
        simp [get_line_scan] at hfull
  · have hsawf : (get_line_scan (line_max - 2) 0 input).2.2.1 = false := by
      cases h : (get_line_scan (line_max - 2) 0 input).2.2.1
      · rfl
      · exact absurd (Or.inl h) hfull
    have hn0 : (get_line_scan (line_max - 2) 0 input).1 = 0 := by
      by_contra hne
      exact hfull (Or.inr (Nat.pos_of_ne_zero hne))
    have hws : (get_line_scan (line_max - 2) 0 input).2.1 = [] := by
      have := hcount
      rw [hn0] at this
      simpa using List.length_eq_zero.mp (by omega)
    have hget : get_line line_max input =
        { writes := [(0, NUL)], ret := 0,
          rest := (get_line_scan (line_max - 2) 0 input).2.2.2 } := by
      simp only [get_line, if_neg hfull]
      rw [hws, hn0]
      simp
    rw [hget]
    refine ⟨?_, ?_, ?_, ?_, ?_, ?_, ?_⟩
    · intro w hw
      simp only [List.mem_singleton] at hw
      subst hw
      simp
      omega
    · simp
      omega
    · rw [hws]
      simp
      omega
    · simp
    · simp
    · intro hpos
      exact absurd hpos (by simp)
    · intro h3
      constructor
      · intro _
        cases input with
        | nil => rfl
        | cons c cs =>
          have := get_line_scan_progress (line_max - 2) c cs 0 (by omega)
          rcases this with h | h
          · rw [hsawf] at h
            exact absurd h (by simp)
          · omega
      · intro _
        rfl

/-- C10 counterexample: with the claim-allowed buffer size line_max = 2 and
the nonempty input "a" (an unterminated final line), get_line consumes the
character (rest is empty) yet returns 0, so a zero return can occur even
though something was read; the claim's parenthetical "0 only at end of file
with nothing read" is false as stated for line_max = 2. -/
theorem get_line_zero_return_counterexample :
    2 ≤ (2 : Int) ∧
    get_line 2 ['a'] = { writes := [(0, NUL)], ret := 0, rest := [] } ∧
    (['a'] : List Char) ≠ [] := by
  refine ⟨by norm_num, by decide, by simp⟩

/-- Closed witness for get_line_bounded_write at line_max = 4 and input "ab":
all writes stay below index 4 and the zero-return condition coincides with
empty input. -/
theorem get_line_bounded_write_witness :
    (∀ w ∈ (get_line 4 ['a', 'b']).writes, (w.1 : Int) < 4) ∧
    ((get_line 4 ['a', 'b']).ret = 0 ↔ (['a', 'b'] : List Char) = []) :=
  ⟨(get_line_bounded_write 4 ['a', 'b'] (by norm_num)).1,
   (get_line_bounded_write 4 ['a', 'b'] (by norm_num)).2.2.2.2.2.2 (by norm_num)⟩

/-- The eligibility flag holds exactly when output_init_function does not
take its debugger/special early return. -/
lemma eligible_iff (p : Purpose) (e : InitEntry) :
    eligible p e = true ↔
      ¬(p = Purpose.PURPOSE_DEBUGGER ∧ e.special_module = true) := by
  simp [eligible, not_and]
  tauto

/-- countB over an empty call list. -/
lemma countB_nil (b : Nat) : countB [] b = 0 := rfl

/-- countB over a cons cell. -/
lemma countB_cons (q : Nat × String) (cs : List (Nat × String)) (b : Nat) :
    countB (q :: cs) b = (if q.1 = b then 1 else 0) + countB cs b := by
  by_cases h : q.1 = b <;> simp [countB, List.filter_cons, h, Nat.add_comm]

/-- The emitted calls name exactly the eligible entry points, in order. -/
lemma sub_calls_names (p : Purpose) (m : Nat) :
    ∀ (es : List InitEntry) (nb nc : Nat),
      (output_sub_init_calls p m es nb nc).2.map Prod.snd =
        (es.filter (eligible p)).map InitEntry.func_name := by
  intro es
  induction es with
  | nil => intro nb nc; simp [output_sub_init_calls]
  | cons e es ih =>
    intro nb nc
    by_cases hskip : p = Purpose.PURPOSE_DEBUGGER ∧ e.special_module = true
    · obtain ⟨hp, hs⟩ := hskip
      subst hp
      have helig : eligible Purpose.PURPOSE_DEBUGGER e = false := by
        simp [eligible, hs]
      simp [output_sub_init_calls, output_init_function, hs,
        List.filter_cons, helig, ih]
    · have helig : eligible p e = true := (eligible_iff p e).mpr hskip
      by_cases hroll : m ≤ nc <;>
        simp [output_sub_init_calls, output_init_function, hskip, hroll,
          List.filter_cons, helig, ih]

/-- The bunch counter never decreases while processing entries. -/
lemma sub_calls_nb_mono (p : Purpose) (m : Nat) :
    ∀ (es : List InitEntry) (nb nc : Nat),
      nb ≤ (output_sub_init_calls p m es nb nc).1 := by
  intro es
  induction es with
  | nil => intro nb nc; simp [output_sub_init_calls]
  | cons e es ih =>
    intro nb nc
    by_cases hskip : p = Purpose.PURPOSE_DEBUGGER ∧ e.special_module = true
    · simpa [output_sub_init_calls, output_init_function, hskip] using ih nb nc
    · by_cases hroll : m ≤ nc
      · have := ih (nb + 1) 1
        simp only [output_sub_init_calls, output_init_function,
          if_neg hskip, if_pos hroll]
        omega
      · have := ih nb (nc + 1)
        simp only [output_sub_init_calls, output_init_function,
          if_neg hskip, if_neg hroll]
        exact this

/-- Every emitted call lands in a bunch between the starting bunch and the
final bunch counter. -/
lemma sub_calls_tags (p : Purpose) (m : Nat) :
    ∀ (es : List InitEntry) (nb nc : Nat),
      ∀ q ∈ (output_sub_init_calls p m es nb nc).2,
        nb ≤ q.1 ∧ q.1 ≤ (output_sub_init_calls p m es nb nc).1 := by
  intro es
  induction es with
  | nil => intro nb nc; simp [output_sub_init_calls]
  | cons e es ih =>
    intro nb nc
    by_cases hskip : p = Purpose.PURPOSE_DEBUGGER ∧ e.special_module = true
    · simpa [output_sub_init_calls, output_init_function, hskip] using ih nb nc
    · by_cases hroll : m ≤ nc
      · simp only [output_sub_init_calls, output_init_function,
          if_neg hskip, if_pos hroll, List.singleton_append, List.mem_cons]
        rintro q (rfl | hq)
        · have := sub_calls_nb_mono p m es (nb + 1) 1
          constructor
          · omega
          · simpa using this
        · have := ih (nb + 1) 1 q hq
          omega
      · simp only [output_sub_init_calls, output_init_function,
          if_neg hskip, if_neg hroll, List.singleton_append, List.mem_cons]
        rintro q (rfl | hq)
        · have := sub_calls_nb_mono p m es nb (nc + 1)
          simpa using this
        · exact ih nb (nc + 1) q hq

/-- Bunch-capacity invariant: past bunches receive no further calls, the
current bunch receives at most m - nc further calls, and future bunches
receive at most m calls each. -/
lemma sub_calls_capacity (p : Purpose) (m : Nat) (hm : 1 ≤ m) :
    ∀ (es : List InitEntry) (nb nc b : Nat), nc ≤ m →
      (b < nb → countB (output_sub_init_calls p m es nb nc).2 b = 0) ∧
      (b = nb → countB (output_sub_init_calls p m es nb nc).2 b + nc ≤ m) ∧
      (nb < b → countB (output_sub_init_calls p m es nb nc).2 b ≤ m) := by
  intro es
  induction es with
  | nil =>
    intro nb nc b hnc
    refine ⟨fun _ => rfl, fun _ => ?_, fun _ => ?_⟩ <;>
      (simp [output_sub_init_calls, countB_nil]; try omega)
  | cons e es ih =>
    intro nb nc b hnc
    by_cases hskip : p = Purpose.PURPOSE_DEBUGGER ∧ e.special_module = true
    · simpa [output_sub_init_calls, output_init_function, hskip]
        using ih nb nc b hnc
    · by_cases hroll : m ≤ nc
      · have hncm : nc = m := le_antisymm hnc hroll
        obtain ⟨IH1, IH2, IH3⟩ := ih (nb + 1) 1 b hm
        simp only [output_sub_init_calls, output_init_function,
          if_neg hskip, if_pos hroll, List.singleton_append, countB_cons]
        refine ⟨fun hb => ?_, fun hb => ?_, fun hb => ?_⟩
        · rw [if_neg (by omega), IH1 (by omega)]
        · rw [if_neg (by omega), IH1 (by omega)]
          omega
        · by_cases hb1 : b = nb + 1
          · have := IH2 hb1
            rw [if_pos hb1.symm]
            omega
          · rw [if_neg (by omega)]
            have := IH3 (by omega)
            omega
      · obtain ⟨IH1, IH2, IH3⟩ := ih nb (nc + 1) b (by omega)
        simp only [output_sub_init_calls, output_init_function,
          if_neg hskip, if_neg hroll, List.singleton_append, countB_cons]
        refine ⟨fun hb => ?_, fun hb => ?_, fun hb => ?_⟩
        · rw [if_neg (by omega), IH1 hb]
        · have := IH2 hb
          rw [if_pos hb.symm]
          omega
        · rw [if_neg (by omega)]
          have := IH3 hb
          omega

/-- C7: with a positive maxcalls, the generator emits exactly one
initialization call per eligible module entry point, in order; every bunch
function receives at most maxcalls calls; a call made with a full bunch
closes it and opens bunch num_bunches + 1; every emitted call lands in a
bunch numbered at most the returned num_bunches; and the generated main
function calls bunch functions 0 through num_bunches each exactly once and
calls no other bunch, so every entry point is called exactly once overall. -/
theorem mkinit_init_call_batching (purpose : Purpose) (maxcalls : Nat)
    (entries : List InitEntry) (hm : 1 ≤ maxcalls) :
    ((output_sub_init_functions purpose maxcalls entries).2.map Prod.snd =
      (entries.filter (eligible purpose)).map InitEntry.func_name) ∧
    (∀ b, countB (output_sub_init_functions purpose maxcalls entries).2 b ≤
      maxcalls) ∧
    (∀ q ∈ (output_sub_init_functions purpose maxcalls entries).2,
      q.1 ≤ (output_sub_init_functions purpose maxcalls entries).1) ∧
    (∀ e nb nc, maxcalls ≤ nc →
      ¬(purpose = Purpose.PURPOSE_DEBUGGER ∧ e.special_module = true) →
      output_init_function purpose maxcalls e nb nc =
        (nb + 1, 1, [(nb + 1, e.func_name)])) ∧
    (∀ b, b ≤ (output_sub_init_functions purpose maxcalls entries).1 →
      (output_main_init_function
        (output_sub_init_functions purpose maxcalls entries).1).count b = 1) ∧
    (∀ b, (output_sub_init_functions purpose maxcalls entries).1 < b →
      (output_main_init_function
        (output_sub_init_functions purpose maxcalls entries).1).count b = 0) := by
  refine ⟨sub_calls_names purpose maxcalls entries 0 0, ?_, ?_, ?_, ?_, ?_⟩
  · intro b
    simp only [output_sub_init_functions]
    obtain ⟨c1, c2, c3⟩ :=
      sub_calls_capacity purpose maxcalls hm entries 0 0 b (by omega)
    by_cases hb : b = 0
    · have := c2 hb
      omega
    · have := c3 (by omega)
      omega
  · intro q hq
    exact (sub_calls_tags purpose maxcalls entries 0 0 q hq).2
  · intro e nb nc hfull hne
    simp [output_init_function, hne, hfull]
  · intro b hb
    have hnodup := List.nodup_range
      ((output_sub_init_functions purpose maxcalls entries).1 + 1)
    have hmem : b ∈ List.range
        ((output_sub_init_functions purpose maxcalls entries).1 + 1) :=
      List.mem_range.mpr (by omega)
    have hle := List.nodup_iff_count_le_one.mp hnodup b
    have hpos := List.count_pos_iff.mpr hmem
    simp only [output_main_init_function]
    omega
  · intro b hb
    simp only [output_main_init_function]
    exact List.count_eq_zero.mpr (by simp [List.mem_range]; omega)

/-- Closed witness for mkinit_init_call_batching: three ordinary modules with
maxcalls = 2 produce one call per module in file order, and bunch 0 receives
at most two calls. -/
theorem mkinit_init_call_batching_witness :
    ((output_sub_init_functions Purpose.PURPOSE_INIT 2
        [⟨"m1", false⟩, ⟨"m2", false⟩, ⟨"m3", false⟩]).2.map Prod.snd =
      (([⟨"m1", false⟩, ⟨"m2", false⟩, ⟨"m3", false⟩] : List InitEntry).filter
        (eligible Purpose.PURPOSE_INIT)).map InitEntry.func_name) ∧
    countB (output_sub_init_functions Purpose.PURPOSE_INIT 2
        [⟨"m1", false⟩, ⟨"m2", false⟩, ⟨"m3", false⟩]).2 0 ≤ 2 :=
  ⟨(mkinit_init_call_batching Purpose.PURPOSE_INIT 2
      [⟨"m1", false⟩, ⟨"m2", false⟩, ⟨"m3", false⟩] (by decide)).1,
   (mkinit_init_call_batching Purpose.PURPOSE_INIT 2
      [⟨"m1", false⟩, ⟨"m2", false⟩, ⟨"m3", false⟩] (by decide)).2.1 0⟩

end Mercury
